import Mathlib

/-!
Verification development for the review search service (`app/main.py`).

The service indexes product reviews into a search engine, deriving a
sentiment label at write time, and translates search/analytics parameters
into structured query specifications.  This file gives a shallow embedding
of that core logic — text normalization, sentiment thresholding, filter /
query / sort construction, pagination, the partial-update merge, the
not-found error paths and bulk ingestion — and proves the specified
properties about it.

Python strings are modelled as `List Char`, optional values as `Option`,
floating point scores as `Rat`, and the two external capabilities (the
lexicon sentiment scorer and the search engine) as explicit function
parameters, so every definition is executable.
-/

namespace ReviewApp

/-- The whitespace characters recognized by Python `str.split()` /
`str.strip()` on ASCII text. -/
def isPyWs (c : Char) : Bool :=
  c = ' ' || c = '\t' || c = '\n' || c = '\r' || c = '\x0b' || c = '\x0c'

/-- Model of Python `html.unescape`, restricted to the core named character
references `amp`, `lt`, `gt` (with and without the trailing semicolon, as in
the html5 reference table).  Like the stdlib implementation it scans left to
right in a single pass and does not rescan replacement text. -/
def unescape : List Char → List Char
  | '&' :: 'a' :: 'm' :: 'p' :: ';' :: rest => '&' :: unescape rest
  | '&' :: 'a' :: 'm' :: 'p' :: rest => '&' :: unescape rest
  | '&' :: 'l' :: 't' :: ';' :: rest => '<' :: unescape rest
  | '&' :: 'l' :: 't' :: rest => '<' :: unescape rest
  | '&' :: 'g' :: 't' :: ';' :: rest => '>' :: unescape rest
  | '&' :: 'g' :: 't' :: rest => '>' :: unescape rest
  | c :: rest => c :: unescape rest
  | [] => []

/-- Scan to the first `'>'` and return the remainder after it
(`none` when there is no `'>'`). -/
def afterGt : List Char → Option (List Char)
  | [] => none
  | c :: rest => if c = '>' then some rest else afterGt rest

/-- Match of the regex `TAG_RE = <[^>]+>` anchored right after an opening
`'<'`: the argument is the text following the `'<'`; the match needs a
nonempty run of non-`'>'` characters followed by `'>'`, and the returned
remainder is the text after that closing `'>'`. -/
def findTag : List Char → Option (List Char)
  | [] => none
  | c :: rest => if c = '>' then none else afterGt rest

/-- `TAG_RE.sub(" ", s)`: replace every (leftmost-first) match of the regex
`<[^>]+>` with a single space, leaving unmatched characters — including
stray unbalanced angle brackets — untouched. -/
def stripTags : List Char → List Char
  | [] => []
  | c :: rest =>
    if c = '<' then
      match h : findTag rest with
      | some rest2 => ' ' :: stripTags rest2
      | none => '<' :: stripTags rest
    else c :: stripTags rest
termination_by l => l.length
decreasing_by
  · have hag : ∀ (l r : List Char), afterGt l = some r → r.length < l.length := by
      intro l
      induction l with
      | nil => intro r hh; simp [afterGt] at hh
      | cons a rest' ih =>
        intro r hh
        simp only [afterGt] at hh
        by_cases ha : a = '>'
        · rw [if_pos ha] at hh
          cases hh
          simp
        · rw [if_neg ha] at hh
          exact Nat.lt_succ_of_lt (ih r hh)
    have hft : rest2.length < rest.length := by
      cases rest with
      | nil => simp [findTag] at h
      | cons a rest' =>
        simp only [findTag] at h
        by_cases ha : a = '>'
        · rw [if_pos ha] at h
          cases h
        · rw [if_neg ha] at h
          exact Nat.lt_succ_of_lt (hag rest' rest2 h)
    exact Nat.lt_succ_of_lt hft
  · exact Nat.lt_succ_self _
  · exact Nat.lt_succ_self _

/-- Python `str.split()` with no separator: maximal runs of
non-whitespace characters, with all whitespace discarded. -/
def pySplit : List Char → List (List Char)
  | [] => []
  | c :: rest =>
    if isPyWs c then pySplit rest
    else (c :: rest.takeWhile (fun d => !isPyWs d)) ::
      pySplit (rest.dropWhile (fun d => !isPyWs d))
termination_by l => l.length
decreasing_by
  · exact Nat.lt_succ_self _
  · exact Nat.lt_succ_of_le (List.dropWhile_sublist _).length_le

/-- `" ".join(words)`: interpose a single space between the words. -/
def pyJoinSpace : List (List Char) → List Char
  | [] => []
  | [w] => w
  | w :: ws => w ++ ' ' :: pyJoinSpace ws

/-- Python `str.strip()`: drop leading and trailing whitespace. -/
def pyStrip (l : List Char) : List Char :=
  ((l.dropWhile isPyWs).reverse.dropWhile isPyWs).reverse

/-- `clean_text` from app/main.py: decode HTML entities, replace each markup
tag with a space, collapse whitespace runs and trim.  (The initial
`s = s or ""` is the identity on actual strings.) -/
def clean_text (l : List Char) : List Char :=
  pyStrip (pyJoinSpace (pySplit (stripTags (unescape l))))

/-- Tag-cleanliness: the text contains no match of `TAG_RE` — at every suffix
beginning with `'<'`, `findTag` fails on the remainder. -/
def cleanB : List Char → Bool
  | [] => true
  | c :: rest => if c = '<' then (findTag rest).isNone && cleanB rest else cleanB rest

/-- `compute_sentiment` from app/main.py.  The VADER lexicon scorer is an
injected capability `polarity` returning its "compound" score (floating
point modelled as `Rat`); the function thresholds that score at ±0.05 with
inclusive boundaries and passes the score through unchanged. -/
def compute_sentiment (polarity : List Char → Rat) (text : List Char) : String × Rat :=
  let score := polarity text
  if score ≥ 5/100 then ("positive", score)
  else if score ≤ -(5/100) then ("negative", score)
  else ("neutral", score)

/-- A value usable as an inclusive range bound: the rating bounds are
integers, the date bounds are ISO-formatted timestamps. -/
inductive RangeVal where
  | int (n : Int)
  | str (s : String)
deriving DecidableEq, Repr

/-- A structured filter clause as built by `build_filters`: an exact `term`
match or a `range` with optional inclusive `gte`/`lte` bounds (a one-sided
range constrains only that side). -/
inductive Clause where
  | term (field : String) (value : String)
  | range (field : String) (gte : Option RangeVal) (lte : Option RangeVal)
deriving DecidableEq, Repr

/-- A timezone-aware timestamp, modelled by its ISO-8601 rendering — the
only operation the query builders apply to a datetime is `.isoformat()`. -/
structure PyDatetime where
  isoformat : String
deriving DecidableEq, Repr

/-- `build_filters` from app/main.py.  Mirrors Python truthiness exactly:
the two string criteria are guarded by `if product_id:` / `if sentiment:`
(absent or empty string is skipped), while the rating and date bounds are
tested with `is not None`, and a range clause carries whichever bounds are
present. -/
def build_filters (product_id sentiment : Option String)
    (min_rating max_rating : Option Int)
    (date_from date_to : Option PyDatetime) : List Clause :=
  (match product_id with
   | some p => if p ≠ "" then [Clause.term ("product_id") p] else []
   | none => []) ++
  (match sentiment with
   | some sv => if sv ≠ "" then [Clause.term ("sentiment") sv] else []
   | none => []) ++
  (if min_rating.isSome || max_rating.isSome then
    [Clause.range ("rating") (min_rating.map RangeVal.int) (max_rating.map RangeVal.int)]
   else []) ++
  (if date_from.isSome || date_to.isSome then
    [Clause.range ("created_at") (date_from.map (fun d => RangeVal.str d.isoformat))
      (date_to.map (fun d => RangeVal.str d.isoformat))]
   else [])

/-- Construction rank of a clause, following the fixed build order:
product term, sentiment term, rating range, created_at range. -/
def clauseRank : Clause → Nat
  | Clause.term f _ => if f = "product_id" then 0 else 1
  | Clause.range f _ _ => if f = "rating" then 2 else 3

/-- The weighted-field full-text clause built for a non-blank query:
`multi_match` over the three fields (the `^boost` suffix in a field name is
Elasticsearch's field-weight notation), `"AUTO"` fuzziness (edit-distance
tolerance scaled automatically with term length) and the `"and"` operator
(conjunctive term semantics: every query term must match somewhere). -/
structure MultiMatch where
  query : List Char
  fields : List String
  fuzziness : String
  operator : String
deriving DecidableEq, Repr

/-- A scoring clause of the composed query: either `match_all` (matches
every document unconditionally) or a weighted `multi_match`. -/
inductive MustClause where
  | match_all
  | multi_match (m : MultiMatch)
deriving DecidableEq, Repr

/-- The composed `bool` query specification: scoring `must` clauses plus
the non-scoring conjunctive `filter` clause list. -/
structure BoolQuery where
  must : List MustClause
  filter : List Clause
deriving DecidableEq, Repr

/-- `build_query` from app/main.py.  The guard mirrors `if q and q.strip():`
— the query must be present, nonempty, and nonempty after stripping
whitespace; otherwise the must clause is `match_all`.  In both branches the
given filter list is attached verbatim. -/
def build_query (q : Option (List Char)) (filters : List Clause) : BoolQuery :=
  match q with
  | some qs =>
    if qs ≠ [] ∧ pyStrip qs ≠ [] then
      { must := [MustClause.multi_match
          { query := qs
            fields := ["review_title^2", "review_text", "product_name^1.5"]
            fuzziness := "AUTO"
            operator := "and" }]
        filter := filters }
    else { must := [MustClause.match_all], filter := filters }
  | none => { must := [MustClause.match_all], filter := filters }

/-- Elasticsearch field-boost notation: `"name^boost"` weights matches on
`name` by `boost`, defaulting to 1 when no caret is present.  The boost is
a decimal numeral with an optional fractional part. -/
def parseDigits (l : List Char) : Nat :=
  l.foldl (fun acc c => acc * 10 + (c.toNat - 48)) 0

def parseDecimal (l : List Char) : Rat :=
  let ip := l.takeWhile (fun c => c ≠ '.')
  let fp := (l.dropWhile (fun c => c ≠ '.')).drop 1
  (parseDigits ip : Rat) + (parseDigits fp : Rat) / ((10 : Rat) ^ fp.length)

def fieldBoost (f : String) : String × Rat :=
  let name := f.data.takeWhile (fun c => c ≠ '^')
  let boost := (f.data.dropWhile (fun c => c ≠ '^')).drop 1
  (⟨name⟩, if boost = [] then 1 else parseDecimal boost)

/-- The enumerated sort mode of the /search endpoint. -/
inductive SortType where
  | relevance
  | newest
  | oldest
  | rating_desc
  | rating_asc
deriving DecidableEq, Repr

/-- `build_sort` from app/main.py: the ordered (field, direction) tiebreak
list for each sort mode; `none` for relevance (defer entirely to the
engine's relevance scoring). -/
def build_sort : SortType → Option (List (String × String))
  | SortType.newest => some [(("created_at"), ("desc")), (("_score"), ("desc"))]
  | SortType.oldest => some [(("created_at"), ("asc")), (("_score"), ("desc"))]
  | SortType.rating_desc => some [(("rating"), ("desc")), (("_score"), ("desc"))]
  | SortType.rating_asc => some [(("rating"), ("asc")), (("_score"), ("desc"))]
  | SortType.relevance => none

/-- Index name (`ES_INDEX` default). -/
def INDEX_NAME : String := "reviews_v1"

/-- A stored review document — the engine's `_source` for one review. -/
structure Doc where
  review_id : String
  product_id : String
  product_name : String
  rating : Int
  review_title : List Char
  review_text : List Char
  created_at : String
  sentiment : String
  sentiment_score : Rat
deriving DecidableEq, Repr

/-- An incoming review submission (`ReviewIn`), already boundary-validated
(pydantic enforces `1 ≤ rating ≤ 5`); `review_title` is optional with
default empty. -/
structure ReviewIn where
  review_id : String
  product_id : String
  product_name : String
  rating : Int
  review_title : Option (List Char)
  review_text : List Char
  created_at : PyDatetime
deriving DecidableEq, Repr

/-- The write-path enrichment shared by `create_review` and `bulk_ingest`:
normalize title and body (`clean_text(r.review_title or "")`), score the
re-trimmed concatenation "{title} {text}", and store the derived label and
score. -/
def enrich (polarity : List Char → Rat) (r : ReviewIn) : Doc :=
  let title := clean_text (r.review_title.getD [])
  let text := clean_text r.review_text
  let ls := compute_sentiment polarity (pyStrip (title ++ ' ' :: text))
  { review_id := r.review_id
    product_id := r.product_id
    product_name := r.product_name
    rating := r.rating
    review_title := title
    review_text := text
    created_at := r.created_at.isoformat
    sentiment := ls.1
    sentiment_score := ls.2 }

def MAX_PAGE_SIZE : Int := 100

def DEFAULT_PAGE_SIZE : Int := 10

/-- The FastAPI validation applied to /search pagination parameters
(`page : Query(ge=1)`, `size : Query(ge=1, le=MAX_PAGE_SIZE)`); requests
outside these bounds are rejected with a validation error before any query
is built. -/
def search_params_valid (page size : Int) : Bool :=
  1 ≤ page && (1 ≤ size && size ≤ MAX_PAGE_SIZE)

/-- One per-field highlight request of the search body. -/
structure HighlightField where
  field : String
  fragment_size : Nat
  number_of_fragments : Nat
deriving DecidableEq, Repr

/-- The search request body assembled by `search_reviews`: the composed
query, `from = (page−1)·size`, `size`, the fixed highlight spec, and the
optional explicit sort (omitted for relevance). -/
structure SearchBody where
  query : BoolQuery
  fromOffset : Int
  size : Int
  highlight : List HighlightField
  sort : Option (List (String × String))
deriving DecidableEq, Repr

def search_body (q : Option (List Char)) (productId sentiment : Option String)
    (minRating maxRating : Option Int) (dateFrom dateTo : Option PyDatetime)
    (sort : SortType) (page size : Int) : SearchBody :=
  let filters := build_filters productId sentiment minRating maxRating dateFrom dateTo
  { query := build_query q filters
    fromOffset := (page - 1) * size
    size := size
    highlight := [⟨("review_text"), 160, 3⟩, ⟨("review_title"), 120, 2⟩]
    sort := build_sort sort }

/-- One raw hit of the engine's search response. -/
structure Hit where
  source : Doc
  score : Option Rat
  highlight : List (String × List String)
deriving DecidableEq, Repr

/-- One response item: the stored document plus its relevance score and its
highlight map. -/
structure SearchItem where
  source : Doc
  score : Option Rat
  highlights : List (String × List String)
deriving DecidableEq, Repr

/-- The per-hit projection of `search_reviews`: each hit's `_source` merged
with its `_score` and highlight fragments. -/
def project_items (hits : List Hit) : List SearchItem :=
  hits.map (fun h => { source := h.source, score := h.score, highlights := h.highlight })

/-- `ReviewUpdate`: the partial-update patch; omitted fields are `none`. -/
structure ReviewUpdate where
  product_id : Option String
  product_name : Option String
  rating : Option Int
  review_title : Option (List Char)
  review_text : Option (List Char)
  created_at : Option PyDatetime
deriving DecidableEq, Repr

/-- The pure merge step of `update_review` (app/main.py): copy the stored
document, overwrite each supplied patch field (normalizing a patched title
or text through `clean_text`), then unconditionally recompute sentiment
from the resulting title and text and force `review_id` back to the path
parameter. -/
def apply_patch (polarity : List Char → Rat) (review_id : String)
    (existing : Doc) (patch : ReviewUpdate) : Doc :=
  let u1 := match patch.product_id with
    | some v => { existing with product_id := v }
    | none => existing
  let u2 := match patch.product_name with
    | some v => { u1 with product_name := v }
    | none => u1
  let u3 := match patch.rating with
    | some v => { u2 with rating := v }
    | none => u2
  let u4 := match patch.review_title with
    | some v => { u3 with review_title := clean_text v }
    | none => u3
  let u5 := match patch.review_text with
    | some v => { u4 with review_text := clean_text v }
    | none => u4
  let u6 := match patch.created_at with
    | some v => { u5 with created_at := v.isoformat }
    | none => u5
  let ls := compute_sentiment polarity (pyStrip (u6.review_title ++ ' ' :: u6.review_text))
  { u6 with sentiment := ls.1, sentiment_score := ls.2, review_id := review_id }

/-- An HTTP error surfaced by an endpoint (`HTTPException`): status code
plus detail string. -/
structure HttpError where
  status : Nat
  detail : String
deriving DecidableEq, Repr

/-- C8 helper: the 400 precondition failure raised by
`ensure_index_exists` when the index is missing. -/
def ensure_index_error : HttpError :=
  ⟨400, "Index does not exist. Call POST /admin/index/create first."⟩

/-- The engine-visible store: whether the index exists, plus the stored
documents keyed by `review_id` (upsert-by-id semantics). -/
structure Engine where
  indexExists : Bool
  docs : List (String × Doc)
deriving DecidableEq, Repr

def Engine.lookup (e : Engine) (id : String) : Option Doc :=
  (e.docs.find? (fun kv => kv.1 = id)).map (fun kv => kv.2)

def Engine.put (e : Engine) (id : String) (d : Doc) : Engine :=
  { e with docs := (id, d) :: e.docs.filter (fun kv => kv.1 ≠ id) }

def Engine.remove (e : Engine) (id : String) : Engine :=
  { e with docs := e.docs.filter (fun kv => kv.1 ≠ id) }

/-- `GET /reviews/{id}`: 400 when the index is missing, 404 "Review not
found" when the id is absent (the engine's NotFoundError is caught and
translated), otherwise the stored document. -/
def get_review (e : Engine) (review_id : String) : Except HttpError Doc :=
  if !e.indexExists then Except.error ensure_index_error
  else match e.lookup review_id with
    | some d => Except.ok d
    | none => Except.error ⟨404, "Review not found"⟩

/-- `PUT /reviews/{id}`: fetch the existing document (404 "Review not
found" when absent, before any write), merge the patch, recompute
sentiment, and upsert under the same id.  Returns the response together
with the resulting engine state. -/
def update_review (polarity : List Char → Rat) (e : Engine) (review_id : String)
    (patch : ReviewUpdate) : Except HttpError Doc × Engine :=
  if !e.indexExists then (Except.error ensure_index_error, e)
  else match e.lookup review_id with
    | none => (Except.error ⟨404, "Review not found"⟩, e)
    | some existing =>
      let updated := apply_patch polarity review_id existing patch
      (Except.ok updated, e.put review_id updated)

/-- The success body of `DELETE /reviews/{id}`. -/
structure DeleteResponse where
  deleted : Bool
  review_id : String
deriving DecidableEq, Repr

/-- `DELETE /reviews/{id}`: 404 "Review not found" when the id is absent
(NotFoundError translated), otherwise delete and acknowledge. -/
def delete_review (e : Engine) (review_id : String) :
    Except HttpError DeleteResponse × Engine :=
  if !e.indexExists then (Except.error ensure_index_error, e)
  else match e.lookup review_id with
    | none => (Except.error ⟨404, "Review not found"⟩, e)
    | some _ => (Except.ok ⟨true, review_id⟩, e.remove review_id)

/-- Split a document stream into consecutive batches of `n` documents
(`chunk_size=n` of `helpers.bulk`); the final batch may be shorter.  Single
structural pass with a countdown of the current batch's remaining
capacity. -/
def chunkGo (n : Nat) : List Doc → Nat → List Doc → List (List Doc)
  | [], _, acc => if acc.isEmpty then [] else [acc.reverse]
  | x :: xs, Nat.succ k, acc => chunkGo n xs k (x :: acc)
  | x :: xs, 0, acc => acc.reverse :: chunkGo n xs (n - 1) [x]

def chunkList (n : Nat) (l : List Doc) : List (List Doc) :=
  chunkGo n l n []

/-- The `BulkIndexError` raised by `elasticsearch.helpers.bulk` when items
of a batch fail: it carries the failed items of that one batch, and its
message — the string the endpoint returns as the 500 detail — renders only
that count: "{failed} document(s) failed to index.".  It does not carry how
many documents of earlier batches were durably indexed. -/
structure BulkIndexError where
  failed : Nat
deriving DecidableEq, Repr

/-- Model of `helpers.bulk(es, actions, chunk_size=500, ...)` submitting the
already-chunked action stream: batches are sent strictly in order;
`engineFail batch = none` means the batch indexed, `some k` means `k` of its
documents failed, upon which the helper raises `BulkIndexError k` and all
later batches are abandoned (the helper performs no retries;
`max_retries` defaults to 0).  Returns the number of documents durably
indexed together with the raised error, if any. -/
def run_bulk (engineFail : List Doc → Option Nat) :
    List (List Doc) → Nat × Option BulkIndexError
  | [] => (0, none)
  | c :: rest =>
    match engineFail c with
    | none =>
      let r := run_bulk engineFail rest
      (c.length + r.1, r.2)
    | some k => (c.length - k, some ⟨k⟩)

/-- The response of `POST /reviews/bulk`: either full success with
`ingested = len(reviews)`, the 400 index-missing precondition failure, or
the 500 failure whose detail is `str(e)` of the raised bulk error — the
count of durably indexed documents is not part of it. -/
inductive BulkResponse where
  | ok (ingested : Nat) (index : String)
  | indexMissing (detail : String)
  | bulkFailure (status : Nat) (err : BulkIndexError)
deriving DecidableEq, Repr

/-- `bulk_ingest` from app/main.py: enrich every submission, submit the
action stream in batches of 500, and acknowledge `len(reviews)` on success;
any raised error surfaces as HTTP 500 with `detail=str(e)`. -/
def bulk_ingest (polarity : List Char → Rat) (engineFail : List Doc → Option Nat)
    (e : Engine) (reviews : List ReviewIn) : BulkResponse :=
  if !e.indexExists then BulkResponse.indexMissing ensure_index_error.detail
  else
    match (run_bulk engineFail (chunkList 500 (reviews.map (enrich polarity)))).2 with
    | none => BulkResponse.ok reviews.length INDEX_NAME
    | some err => BulkResponse.bulkFailure 500 err

/-- A concrete submission fixture. -/
def sampleReview : ReviewIn :=
  { review_id := "r1"
    product_id := "p1"
    product_name := "n1"
    rating := 5
    review_title := none
    review_text := 'o' :: 'k' :: []
    created_at := ⟨"2024-01-01T00:00:00+00:00"⟩ }

theorem stripTags_nil : stripTags [] = [] := stripTags.eq_1

theorem stripTags_tag (rest rest2 : List Char) (h : findTag rest = some rest2) :
    stripTags ('<' :: rest) = ' ' :: stripTags rest2 := by
  rw [stripTags.eq_2]
  rw [if_pos rfl]
  split
  next r2 heq =>
    rw [h] at heq
    have hr := Option.some.inj heq
    subst hr
    rfl
  next heq =>
    rw [h] at heq
    cases heq

theorem stripTags_lone (rest : List Char) (h : findTag rest = none) :
    stripTags ('<' :: rest) = '<' :: stripTags rest := by
  rw [stripTags.eq_2]
  rw [if_pos rfl]
  split
  next r2 heq =>
    rw [h] at heq
    cases heq
  next heq => rfl

theorem stripTags_copy (c : Char) (rest : List Char) (hc : c ≠ '<') :
    stripTags (c :: rest) = c :: stripTags rest := by
  rw [stripTags.eq_2]
  rw [if_neg hc]

theorem cleanB_cons_lt (rest : List Char) :
    cleanB ('<' :: rest) = ((findTag rest).isNone && cleanB rest) := by
  simp [cleanB]

theorem cleanB_cons_ne (c : Char) (rest : List Char) (hc : c ≠ '<') :
    cleanB (c :: rest) = cleanB rest := by
  simp [cleanB, hc]

theorem afterGt_eq_none_iff (l : List Char) : afterGt l = none ↔ '>' ∉ l := by
  induction l with
  | nil => simp [afterGt]
  | cons c rest ih =>
    simp only [afterGt]
    by_cases hc : c = '>'
    · subst hc; simp
    · rw [if_neg hc]
      simp [ih, List.mem_cons, Ne.symm hc]

theorem findTag_eq_none_iff (l : List Char) :
    findTag l = none ↔ l.head? = some '>' ∨ '>' ∉ l := by
  cases l with
  | nil => simp [findTag]
  | cons c rest =>
    simp only [findTag, List.head?_cons]
    by_cases hc : c = '>'
    · subst hc; simp
    · rw [if_neg hc, afterGt_eq_none_iff]
      simp [List.mem_cons, hc, Ne.symm hc]

theorem findTag_none_of_no_gt (l : List Char) (h : '>' ∉ l) : findTag l = none :=
  (findTag_eq_none_iff l).2 (Or.inr h)

theorem stripTags_eq_of_no_gt (l : List Char) (h : '>' ∉ l) : stripTags l = l := by
  induction l using stripTags.induct with
  | case1 => exact stripTags_nil
  | case2 rest rest2 hft ih =>
    exfalso
    have hnone : findTag rest = none :=
      findTag_none_of_no_gt rest (fun hm => h (List.mem_cons_of_mem _ hm))
    rw [hnone] at hft
    cases hft
  | case3 rest hft ih =>
    have hrest : '>' ∉ rest := fun hm => h (List.mem_cons_of_mem _ hm)
    rw [stripTags_lone rest hft, ih hrest]
  | case4 c rest hc ih =>
    have hrest : '>' ∉ rest := fun hm => h (List.mem_cons_of_mem _ hm)
    rw [stripTags_copy c rest hc, ih hrest]

theorem cleanB_stripTags (l : List Char) : cleanB (stripTags l) = true := by
  induction l using stripTags.induct with
  | case1 => rw [stripTags_nil]; rfl
  | case2 rest rest2 hft ih =>
    rw [stripTags_tag rest rest2 hft]
    rw [cleanB_cons_ne ' ' _ (by decide)]
    exact ih
  | case3 rest hft ih =>
    rw [stripTags_lone rest hft, cleanB_cons_lt, Bool.and_eq_true]
    refine ⟨?_, ih⟩
    rw [Option.isNone_iff_eq_none, findTag_eq_none_iff]
    rcases (findTag_eq_none_iff rest).1 hft with hh | hh
    · cases rest with
      | nil =>
        right
        rw [stripTags_nil]
        simp
      | cons e rest' =>
        simp only [List.head?_cons, Option.some.injEq] at hh
        subst hh
        left
        rw [stripTags_copy _ _ (by decide)]
        rfl
    · right
      rw [stripTags_eq_of_no_gt rest hh]
      exact hh
  | case4 c rest hc ih =>
    rw [stripTags_copy c rest hc, cleanB_cons_ne c _ hc]
    exact ih

theorem stripTags_eq_of_clean (l : List Char) (h : cleanB l = true) : stripTags l = l := by
  induction l using stripTags.induct with
  | case1 => exact stripTags_nil
  | case2 rest rest2 hft ih =>
    exfalso
    rw [cleanB_cons_lt, Bool.and_eq_true, Option.isNone_iff_eq_none] at h
    rw [h.1] at hft
    cases hft
  | case3 rest hft ih =>
    rw [cleanB_cons_lt, Bool.and_eq_true] at h
    rw [stripTags_lone rest hft, ih h.2]
  | case4 c rest hc ih =>
    rw [cleanB_cons_ne c rest hc] at h
    rw [stripTags_copy c rest hc, ih h]

theorem afterGt_append_some (x y r : List Char) (h : afterGt x = some r) :
    afterGt (x ++ y) = some (r ++ y) := by
  induction x with
  | nil => simp [afterGt] at h
  | cons c x' ih =>
    simp only [afterGt] at h
    simp only [List.cons_append, afterGt]
    by_cases hc : c = '>'
    · rw [if_pos hc] at h ⊢
      cases h
      rfl
    · rw [if_neg hc] at h ⊢
      exact ih h

theorem findTag_append_some (x y r : List Char) (h : findTag x = some r) :
    findTag (x ++ y) = some (r ++ y) := by
  cases x with
  | nil => simp [findTag] at h
  | cons c x' =>
    simp only [findTag] at h
    simp only [List.cons_append, findTag]
    by_cases hc : c = '>'
    · rw [if_pos hc] at h
      cases h
    · rw [if_neg hc] at h ⊢
      exact afterGt_append_some x' y r h

theorem findTag_none_of_append (x y : List Char) (h : findTag (x ++ y) = none) :
    findTag x = none := by
  cases hx : findTag x with
  | none => rfl
  | some r =>
    rw [findTag_append_some x y r hx] at h
    cases h

theorem cleanB_append_left (x y : List Char) (h : cleanB (x ++ y) = true) :
    cleanB x = true := by
  induction x with
  | nil => rfl
  | cons c x' ih =>
    rw [List.cons_append] at h
    by_cases hc : c = '<'
    · subst hc
      rw [cleanB_cons_lt, Bool.and_eq_true] at h
      rw [cleanB_cons_lt, Bool.and_eq_true]
      refine ⟨?_, ih h.2⟩
      rw [Option.isNone_iff_eq_none] at h ⊢
      exact findTag_none_of_append x' y h.1
    · rw [cleanB_cons_ne c _ hc] at h
      rw [cleanB_cons_ne c _ hc]
      exact ih h

theorem cleanB_append_right (x y : List Char) (h : cleanB (x ++ y) = true) :
    cleanB y = true := by
  induction x with
  | nil => exact h
  | cons c x' ih =>
    rw [List.cons_append] at h
    by_cases hc : c = '<'
    · subst hc
      rw [cleanB_cons_lt, Bool.and_eq_true] at h
      exact ih h.2
    · rw [cleanB_cons_ne c _ hc] at h
      exact ih h

/-- Gluing a clean prefix and a clean suffix with a single space: safe as
long as the original continuation `y` started with a non-`'>'` character and
the new suffix `z` introduces no `'>'` that `y` did not have. -/
theorem cleanB_glue (x y z : List Char) (d : Char) (hy : y.head? = some d) (hd : d ≠ '>')
    (hxy : cleanB (x ++ y) = true) (hz : cleanB z = true)
    (hgt : '>' ∈ z → '>' ∈ y) : cleanB (x ++ ' ' :: z) = true := by
  induction x with
  | nil =>
    rw [List.nil_append, cleanB_cons_ne ' ' _ (by decide)]
    exact hz
  | cons c x' ih =>
    rw [List.cons_append] at hxy ⊢
    by_cases hc : c = '<'
    · subst hc
      rw [cleanB_cons_lt, Bool.and_eq_true] at hxy ⊢
      obtain ⟨h1, h2⟩ := hxy
      refine ⟨?_, ih h2⟩
      rw [Option.isNone_iff_eq_none, findTag_eq_none_iff] at h1 ⊢
      rcases h1 with hh | hh
      · cases x' with
        | nil =>
          rw [List.nil_append, hy] at hh
          exfalso
          exact hd (Option.some.inj hh)
        | cons e x'' =>
          left
          simp only [List.cons_append, List.head?_cons] at hh ⊢
          exact hh
      · right
        intro hmem
        rw [List.mem_append] at hmem
        rcases hmem with hm | hm
        · exact hh (List.mem_append.2 (Or.inl hm))
        · rcases List.mem_cons.1 hm with hm' | hm'
          · cases hm'
          · exact hh (List.mem_append.2 (Or.inr (hgt hm')))
    · rw [cleanB_cons_ne c _ hc] at hxy ⊢
      exact ih hxy

theorem pySplit_nil : pySplit [] = [] := pySplit.eq_1

theorem pySplit_ws (c : Char) (rest : List Char) (hc : isPyWs c = true) :
    pySplit (c :: rest) = pySplit rest := by
  rw [pySplit.eq_2, if_pos hc]

theorem pySplit_word (c : Char) (rest : List Char) (hc : isPyWs c = false) :
    pySplit (c :: rest) = (c :: rest.takeWhile (fun d => !isPyWs d)) ::
      pySplit (rest.dropWhile (fun d => !isPyWs d)) := by
  rw [pySplit.eq_2, if_neg (by simp [hc])]

theorem pyJoinSpace_nil : pyJoinSpace [] = [] := rfl

theorem pyJoinSpace_single (w : List Char) : pyJoinSpace [w] = w := rfl

theorem pyJoinSpace_cons₂ (w w2 : List Char) (ws : List (List Char)) :
    pyJoinSpace (w :: w2 :: ws) = w ++ ' ' :: pyJoinSpace (w2 :: ws) := rfl

theorem mem_takeWhile_sat {α : Type} (p : α → Bool) :
    ∀ (l : List α) (c : α), c ∈ l.takeWhile p → p c = true := by
  intro l
  induction l with
  | nil => intro c h; cases h
  | cons a l' ih =>
    intro c h
    by_cases ha : p a = true
    · rw [List.takeWhile_cons_of_pos ha] at h
      rcases List.mem_cons.1 h with h' | h'
      · subst h'; exact ha
      · exact ih c h'
    · rw [List.takeWhile_cons_of_neg (by simpa using ha)] at h
      cases h

theorem takeWhile_all {α : Type} (p : α → Bool) :
    ∀ (l : List α), (∀ x ∈ l, p x = true) → l.takeWhile p = l := by
  intro l
  induction l with
  | nil => intro _; rfl
  | cons a l' ih =>
    intro h
    rw [List.takeWhile_cons_of_pos (h a (List.mem_cons_self a l'))]
    rw [ih (fun x hx => h x (List.mem_cons_of_mem a hx))]

theorem dropWhile_all {α : Type} (p : α → Bool) :
    ∀ (l : List α), (∀ x ∈ l, p x = true) → l.dropWhile p = [] := by
  intro l
  induction l with
  | nil => intro _; rfl
  | cons a l' ih =>
    intro h
    rw [List.dropWhile_cons_of_pos (h a (List.mem_cons_self a l'))]
    exact ih (fun x hx => h x (List.mem_cons_of_mem a hx))

theorem dropWhile_head_not {α : Type} (p : α → Bool) :
    ∀ (l : List α) (c : α) (cs : List α), l.dropWhile p = c :: cs → p c = false := by
  intro l
  induction l with
  | nil => intro c cs h; cases h
  | cons a l' ih =>
    intro c cs h
    by_cases ha : p a = true
    · rw [List.dropWhile_cons_of_pos ha] at h
      exact ih c cs h
    · rw [List.dropWhile_cons_of_neg (by simpa using ha)] at h
      cases h
      simpa using ha

/-- Every word produced by `str.split()` is nonempty and whitespace-free. -/
theorem pySplit_words_good (l : List Char) :
    ∀ w ∈ pySplit l, w ≠ [] ∧ ∀ c ∈ w, isPyWs c = false := by
  induction l using pySplit.induct with
  | case1 =>
    rw [pySplit_nil]
    intro w hw
    cases hw
  | case2 c rest hc ih =>
    rw [pySplit_ws c rest hc]
    exact ih
  | case3 c rest hc ih =>
    have hc' : isPyWs c = false := by
      cases h : isPyWs c
      · rfl
      · exact absurd h hc
    rw [pySplit_word c rest hc']
    intro w hw
    rcases List.mem_cons.1 hw with hw' | hw'
    · subst hw'
      refine ⟨by simp, ?_⟩
      intro d hd
      rcases List.mem_cons.1 hd with hd' | hd'
      · subst hd'; exact hc'
      · have := mem_takeWhile_sat (fun d => !isPyWs d) rest d hd'
        simpa using this
    · exact ih w hw'

/-- Splitting a join of good words gives the words back. -/
theorem pySplit_pyJoinSpace (ws : List (List Char))
    (h : ∀ w ∈ ws, w ≠ [] ∧ ∀ c ∈ w, isPyWs c = false) :
    pySplit (pyJoinSpace ws) = ws := by
  induction ws with
  | nil => exact pySplit_nil
  | cons w ws' ih =>
    obtain ⟨hne, hchars⟩ := h w (List.mem_cons_self w ws')
    obtain ⟨c, w', hw⟩ : ∃ c w', w = c :: w' := by
      cases w with
      | nil => exact absurd rfl hne
      | cons c w' => exact ⟨c, w', rfl⟩
    subst hw
    have hc : isPyWs c = false := hchars c (List.mem_cons_self c w')
    have hw' : ∀ d ∈ w', (fun d => !isPyWs d) d = true := by
      intro d hd
      simp [hchars d (List.mem_cons_of_mem c hd)]
    cases ws' with
    | nil =>
      rw [pyJoinSpace_single, pySplit_word c w' hc]
      rw [takeWhile_all _ w' hw', dropWhile_all _ w' hw', pySplit_nil]
    | cons w2 ws'' =>
      rw [pyJoinSpace_cons₂, List.cons_append, pySplit_word c _ hc]
      rw [List.takeWhile_append_of_pos hw', List.dropWhile_append_of_pos hw']
      rw [List.takeWhile_cons_of_neg (by decide), List.dropWhile_cons_of_neg (by decide)]
      rw [List.append_nil]
      have hrec : pySplit (' ' :: pyJoinSpace (w2 :: ws'')) = pySplit (pyJoinSpace (w2 :: ws'')) :=
        pySplit_ws ' ' _ (by simp [isPyWs])
      rw [hrec, ih (fun v hv => h v (List.mem_cons_of_mem _ hv))]

theorem pyJoinSpace_ne_nil (w : List Char) (ws : List (List Char)) (hne : w ≠ []) :
    pyJoinSpace (w :: ws) ≠ [] := by
  cases ws with
  | nil => simpa [pyJoinSpace_single] using hne
  | cons w2 ws' =>
    rw [pyJoinSpace_cons₂]
    intro hcontra
    rcases List.append_eq_nil.1 hcontra with ⟨h1, h2⟩
    exact hne h1

theorem pyJoinSpace_head_nonws (ws : List (List Char))
    (h : ∀ w ∈ ws, w ≠ [] ∧ ∀ c ∈ w, isPyWs c = false) :
    ∀ c, (pyJoinSpace ws).head? = some c → isPyWs c = false := by
  cases ws with
  | nil => intro c hc; cases hc
  | cons w ws' =>
    obtain ⟨hne, hchars⟩ := h w (List.mem_cons_self w ws')
    obtain ⟨a, w', hw⟩ : ∃ a w', w = a :: w' := by
      cases w with
      | nil => exact absurd rfl hne
      | cons a w' => exact ⟨a, w', rfl⟩
    subst hw
    intro c hc
    have : c = a := by
      cases ws' with
      | nil => rw [pyJoinSpace_single, List.head?_cons] at hc; exact (Option.some.inj hc).symm
      | cons w2 ws'' =>
        rw [pyJoinSpace_cons₂, List.cons_append, List.head?_cons] at hc
        exact (Option.some.inj hc).symm
    rw [this]
    exact hchars a (List.mem_cons_self a w')

theorem getLast?_mem_of_eq {α : Type} (l : List α) (c : α) (h : l.getLast? = some c) :
    c ∈ l := by
  obtain ⟨ys, rfl⟩ := List.getLast?_eq_some_iff.1 h
  exact List.mem_append.2 (Or.inr (List.mem_cons_self c []))

theorem pyJoinSpace_getLast_nonws (ws : List (List Char))
    (h : ∀ w ∈ ws, w ≠ [] ∧ ∀ c ∈ w, isPyWs c = false) :
    ∀ c, (pyJoinSpace ws).getLast? = some c → isPyWs c = false := by
  induction ws with
  | nil => intro c hc; cases hc
  | cons w ws' ih =>
    obtain ⟨hne, hchars⟩ := h w (List.mem_cons_self w ws')
    cases ws' with
    | nil =>
      rw [pyJoinSpace_single]
      intro c hc
      exact hchars c (getLast?_mem_of_eq w c hc)
    | cons w2 ws'' =>
      rw [pyJoinSpace_cons₂]
      intro c hc
      have hne2 : pyJoinSpace (w2 :: ws'') ≠ [] :=
        pyJoinSpace_ne_nil w2 ws'' (h w2 (List.mem_cons_of_mem _ (List.mem_cons_self _ _))).1
      obtain ⟨x, xs, hJ⟩ : ∃ x xs, pyJoinSpace (w2 :: ws'') = x :: xs := by
        cases hJ : pyJoinSpace (w2 :: ws'') with
        | nil => exact absurd hJ hne2
        | cons x xs => exact ⟨x, xs, rfl⟩
      rw [hJ, List.getLast?_append, List.getLast?_cons_cons] at hc
      have hlast : (x :: xs).getLast? = some c := by
        cases hg : (x :: xs).getLast? with
        | none => exact absurd (List.getLast?_eq_none_iff.1 hg) (by simp)
        | some d =>
          rw [hg, Option.or_some] at hc
          exact hc
      exact ih (fun v hv => h v (List.mem_cons_of_mem _ hv)) c (by rw [hJ]; exact hlast)

theorem dropWhile_eq_self_of_head (l : List Char)
    (h : ∀ c, l.head? = some c → isPyWs c = false) : l.dropWhile isPyWs = l := by
  cases l with
  | nil => rfl
  | cons a l' => exact List.dropWhile_cons_of_neg (by simp [h a rfl])

theorem pyStrip_eq_self (l : List Char)
    (h1 : ∀ c, l.head? = some c → isPyWs c = false)
    (h2 : ∀ c, l.getLast? = some c → isPyWs c = false) : pyStrip l = l := by
  unfold pyStrip
  rw [dropWhile_eq_self_of_head l h1]
  rw [dropWhile_eq_self_of_head l.reverse
    (fun c hc => h2 c (by rwa [List.head?_reverse] at hc))]
  exact List.reverse_reverse l

/-- Stripping a join of good words is the identity: the joined text starts
and ends with a non-whitespace character. -/
theorem pyStrip_pyJoinSpace (ws : List (List Char))
    (h : ∀ w ∈ ws, w ≠ [] ∧ ∀ c ∈ w, isPyWs c = false) :
    pyStrip (pyJoinSpace ws) = pyJoinSpace ws :=
  pyStrip_eq_self _ (pyJoinSpace_head_nonws ws h) (pyJoinSpace_getLast_nonws ws h)

theorem mem_pyJoinSpace (ws : List (List Char)) (c : Char) (h : c ∈ pyJoinSpace ws) :
    c = ' ' ∨ ∃ w ∈ ws, c ∈ w := by
  induction ws with
  | nil => cases h
  | cons w ws' ih =>
    cases ws' with
    | nil =>
      rw [pyJoinSpace_single] at h
      exact Or.inr ⟨w, List.mem_cons_self w [], h⟩
    | cons w2 ws'' =>
      rw [pyJoinSpace_cons₂] at h
      rcases List.mem_append.1 h with hm | hm
      · exact Or.inr ⟨w, List.mem_cons_self _ _, hm⟩
      · rcases List.mem_cons.1 hm with hm' | hm'
        · exact Or.inl hm'
        · rcases ih hm' with h' | ⟨v, hv, hcv⟩
          · exact Or.inl h'
          · exact Or.inr ⟨v, List.mem_cons_of_mem _ hv, hcv⟩

theorem mem_pySplit (l : List Char) :
    ∀ w ∈ pySplit l, ∀ c ∈ w, c ∈ l := by
  induction l using pySplit.induct with
  | case1 =>
    rw [pySplit_nil]
    intro w hw
    cases hw
  | case2 c rest hc ih =>
    rw [pySplit_ws c rest hc]
    intro w hw d hd
    exact List.mem_cons_of_mem c (ih w hw d hd)
  | case3 c rest hc ih =>
    have hc' : isPyWs c = false := by
      cases hb : isPyWs c
      · rfl
      · exact absurd hb hc
    rw [pySplit_word c rest hc']
    intro w hw d hd
    rcases List.mem_cons.1 hw with hw' | hw'
    · subst hw'
      rcases List.mem_cons.1 hd with hd' | hd'
      · subst hd'
        exact List.mem_cons_self d rest
      · exact List.mem_cons_of_mem c (List.takeWhile_subset _ hd')
    · exact List.mem_cons_of_mem c (List.dropWhile_subset _ (ih w hw' d hd))

/-- Collapsing whitespace — `" ".join(s.split())` — preserves
tag-cleanliness. -/
theorem cleanB_joinSplit (l : List Char) (h : cleanB l = true) :
    cleanB (pyJoinSpace (pySplit l)) = true := by
  induction l using pySplit.induct with
  | case1 =>
    rw [pySplit_nil]
    rfl
  | case2 c rest hc ih =>
    rw [pySplit_ws c rest hc]
    apply ih
    have hcne : c ≠ '<' := by
      intro he
      subst he
      exact absurd hc (by decide)
    rwa [cleanB_cons_ne c rest hcne] at h
  | case3 c rest hc ih =>
    have hc' : isPyWs c = false := by
      cases hb : isPyWs c
      · rfl
      · exact absurd hb hc
    rw [pySplit_word c rest hc']
    have hsplit : c :: rest =
        (c :: rest.takeWhile (fun d => !isPyWs d)) ++ rest.dropWhile (fun d => !isPyWs d) := by
      rw [List.cons_append, List.takeWhile_append_dropWhile]
    rw [hsplit] at h
    cases hr : pySplit (rest.dropWhile (fun d => !isPyWs d)) with
    | nil =>
      rw [pyJoinSpace_single]
      exact cleanB_append_left _ _ h
    | cons w2 ws2 =>
      rw [pyJoinSpace_cons₂]
      have hrne : rest.dropWhile (fun d => !isPyWs d) ≠ [] := by
        intro he
        rw [he, pySplit_nil] at hr
        cases hr
      obtain ⟨dh, r', hre⟩ : ∃ d r', rest.dropWhile (fun d => !isPyWs d) = d :: r' := by
        cases he : rest.dropWhile (fun d => !isPyWs d) with
        | nil => exact absurd he hrne
        | cons d r' => exact ⟨d, r', rfl⟩
      have hd_ws : isPyWs dh = true := by
        have := dropWhile_head_not (fun d => !isPyWs d) rest dh r' hre
        simpa using this
      have hd_ne : dh ≠ '>' := by
        intro he
        subst he
        exact absurd hd_ws (by decide)
      rw [← hr]
      apply cleanB_glue _ _ _ dh (by rw [hre]; rfl) hd_ne h
      · apply ih
        exact cleanB_append_right _ _ h
      · intro hgt
        rcases mem_pyJoinSpace _ _ hgt with h' | ⟨v, hv, hcv⟩
        · exact absurd h' (by decide)
        · exact mem_pySplit _ v hv '>' hcv

example : clean_text ('&' :: 'a' :: 'm' :: 'p' :: ';' :: 'l' :: 't' :: ';' :: []) =
    ('&' :: 'l' :: 't' :: ';' :: []) := by
  simp [clean_text, unescape, stripTags, findTag, afterGt, pySplit, pyJoinSpace, pyStrip, isPyWs]

example : clean_text ('&' :: 'l' :: 't' :: ';' :: []) = ('<' :: []) := by
  simp [clean_text, unescape, stripTags, findTag, afterGt, pySplit, pyJoinSpace, pyStrip, isPyWs]

example : clean_text (' ' :: '<' :: 'b' :: '>' :: 'h' :: 'i' :: '<' :: '/' :: 'b' :: '>' :: []) =
    ('h' :: 'i' :: []) := by
  simp [clean_text, unescape, stripTags, findTag, afterGt, pySplit, pyJoinSpace, pyStrip, isPyWs]

/-- C1 counterexample: `clean_text` is not idempotent on every string.  On
the input "&amp;lt;" the first pass decodes `&amp;` to `&` and yields
"&lt;", which contains no tag; a second pass decodes `&lt;` to `<`, so
applying `clean_text` twice differs from applying it once. -/
theorem C1_clean_text_not_idempotent :
    clean_text (clean_text ('&' :: 'a' :: 'm' :: 'p' :: ';' :: 'l' :: 't' :: ';' :: [])) ≠
      clean_text ('&' :: 'a' :: 'm' :: 'p' :: ';' :: 'l' :: 't' :: ';' :: []) := by
  simp [clean_text, unescape, stripTags, findTag, afterGt, pySplit, pyJoinSpace, pyStrip, isPyWs]

/-- C1 (amended): `clean_text` is idempotent on every string whose cleaned
form is entity-free, i.e. on which the entity-decoding pass of a second
application acts as the identity — in particular on the empty string and on
strings consisting only of markup tags.  (Unamended, the claim fails:
cleaning can surface a fresh entity, see `C1_clean_text_not_idempotent`.) -/
theorem C1_clean_text_idempotent_entity_free (s : List Char)
    (h : unescape (clean_text s) = clean_text s) :
    clean_text (clean_text s) = clean_text s := by
  have hgood := pySplit_words_good (stripTags (unescape s))
  have hstrip : pyStrip (pyJoinSpace (pySplit (stripTags (unescape s)))) =
      pyJoinSpace (pySplit (stripTags (unescape s))) :=
    pyStrip_pyJoinSpace _ hgood
  have ht : clean_text s = pyJoinSpace (pySplit (stripTags (unescape s))) := hstrip
  have hcleanT : cleanB (clean_text s) = true := by
    rw [ht]
    exact cleanB_joinSplit _ (cleanB_stripTags (unescape s))
  show pyStrip (pyJoinSpace (pySplit (stripTags (unescape (clean_text s))))) = clean_text s
  rw [h, stripTags_eq_of_clean _ hcleanT, ht, pySplit_pyJoinSpace _ hgood]
  exact hstrip

/-- C1 witness: the amended idempotence theorem applied at the concrete
markup-bearing input " <b> hi </b>", whose cleaned form "hi" is
entity-free. -/
theorem C1_witness :
    clean_text (clean_text
        (' ' :: '<' :: 'b' :: '>' :: 'h' :: 'i' :: '<' :: '/' :: 'b' :: '>' :: [])) =
      clean_text (' ' :: '<' :: 'b' :: '>' :: 'h' :: 'i' :: '<' :: '/' :: 'b' :: '>' :: []) :=
  C1_clean_text_idempotent_entity_free _ (by
    simp [clean_text, unescape, stripTags, findTag, afterGt, pySplit, pyJoinSpace, pyStrip,
      isPyWs])

/-- C2: `compute_sentiment`'s label is a pure function of the scorer's
compound score with inclusive boundaries — ≥ 0.05 is positive, ≤ −0.05 is
negative, the open interval between is neutral — and the returned score is
the scorer's compound score unchanged. -/
theorem C2_compute_sentiment_thresholds (polarity : List Char → Rat) (text : List Char) :
    ((5/100 ≤ polarity text →
        compute_sentiment polarity text = ("positive", polarity text)) ∧
     (polarity text ≤ -(5/100) →
        compute_sentiment polarity text = ("negative", polarity text)) ∧
     (-(5/100) < polarity text → polarity text < 5/100 →
        compute_sentiment polarity text = ("neutral", polarity text))) ∧
    (compute_sentiment polarity text).2 = polarity text := by
  unfold compute_sentiment
  refine ⟨⟨?_, ?_, ?_⟩, ?_⟩
  · intro h
    rw [if_pos h]
  · intro h
    have hneg : ¬(5/100 ≤ polarity text) := by
      intro hc
      have : (5 : Rat)/100 ≤ -(5/100) := le_trans hc h
      norm_num at this
    rw [if_neg hneg, if_pos h]
  · intro h1 h2
    rw [if_neg (by intro hc; exact absurd h2 (not_lt.2 hc))]
    rw [if_neg (by intro hc; exact absurd h1 (not_lt.2 hc))]
  · by_cases h1 : 5/100 ≤ polarity text
    · rw [if_pos h1]
    · rw [if_neg h1]
      by_cases h2 : polarity text ≤ -(5/100)
      · rw [if_pos h2]
      · rw [if_neg h2]

/-- C2 witness: the three threshold cases at the boundary scores 0.05,
−0.05 and 0.0, using constant scorers. -/
theorem C2_witness :
    compute_sentiment (fun _ => 5/100) [] = ("positive", 5/100) ∧
    compute_sentiment (fun _ => -(5/100)) [] = ("negative", -(5/100)) ∧
    compute_sentiment (fun _ => 0) [] = ("neutral", 0) :=
  ⟨(C2_compute_sentiment_thresholds (fun _ => 5/100) []).1.1 (by norm_num),
   (C2_compute_sentiment_thresholds (fun _ => -(5/100)) []).1.2.1 (by norm_num),
   (C2_compute_sentiment_thresholds (fun _ => 0) []).1.2.2 (by norm_num) (by norm_num)⟩

theorem pairwise_rank_of_const (l : List Clause) (k : Nat)
    (h : ∀ x ∈ l, clauseRank x = k) :
    List.Pairwise (fun a b => clauseRank a ≤ clauseRank b) l := by
  induction l with
  | nil => exact List.Pairwise.nil
  | cons a l' ih =>
    refine List.Pairwise.cons ?_ (ih (fun x hx => h x (List.mem_cons_of_mem a hx)))
    intro b hb
    rw [h a (List.mem_cons_self a l'), h b (List.mem_cons_of_mem a hb)]

theorem pairwise_rank_blocks (l0 l1 l2 l3 : List Clause)
    (h0 : ∀ x ∈ l0, clauseRank x = 0) (h1 : ∀ x ∈ l1, clauseRank x = 1)
    (h2 : ∀ x ∈ l2, clauseRank x = 2) (h3 : ∀ x ∈ l3, clauseRank x = 3) :
    List.Pairwise (fun a b => clauseRank a ≤ clauseRank b) (l0 ++ l1 ++ l2 ++ l3) := by
  rw [List.pairwise_append]
  refine ⟨?_, pairwise_rank_of_const l3 3 h3, ?_⟩
  · rw [List.pairwise_append]
    refine ⟨?_, pairwise_rank_of_const l2 2 h2, ?_⟩
    · rw [List.pairwise_append]
      refine ⟨pairwise_rank_of_const l0 0 h0, pairwise_rank_of_const l1 1 h1, ?_⟩
      intro a ha b hb
      rw [h0 a ha, h1 b hb]
      omega
    · intro a ha b hb
      rcases List.mem_append.1 ha with ha' | ha'
      · rw [h0 a ha', h2 b hb]; omega
      · rw [h1 a ha', h2 b hb]; omega
  · intro a ha b hb
    rcases List.mem_append.1 ha with ha' | ha'
    · rcases List.mem_append.1 ha' with ha'' | ha''
      · rw [h0 a ha'', h3 b hb]; omega
      · rw [h1 a ha'', h3 b hb]; omega
    · rw [h2 a ha', h3 b hb]; omega

/-- C3: `build_filters` with all six inputs absent returns the empty clause
list; only `min_rating = 3` yields exactly one rating range clause with
lower bound 3 and no upper bound; and the clause list is always ordered by
the fixed construction rank (product term, sentiment term, rating range,
created_at range), so identical inputs give the identical list. -/
theorem C3_build_filters_shape :
    build_filters none none none none none none = [] ∧
    build_filters none none (some 3) none none none =
      [Clause.range ("rating") (some (RangeVal.int 3)) none] ∧
    ∀ product_id sentiment min_rating max_rating date_from date_to,
      List.Pairwise (fun a b => clauseRank a ≤ clauseRank b)
        (build_filters product_id sentiment min_rating max_rating date_from date_to) := by
  refine ⟨by decide, by decide, ?_⟩
  intro product_id sentiment min_rating max_rating date_from date_to
  apply pairwise_rank_blocks
  · intro x hx
    match product_id with
    | none => cases hx
    | some p =>
      replace hx : x ∈ (if p ≠ "" then [Clause.term ("product_id") p] else []) := hx
      by_cases hp : p ≠ ""
      · rw [if_pos hp] at hx
        rcases List.mem_cons.1 hx with hx' | hx'
        · subst hx'; simp [clauseRank]
        · cases hx'
      · rw [if_neg hp] at hx
        cases hx
  · intro x hx
    match sentiment with
    | none => cases hx
    | some sv =>
      replace hx : x ∈ (if sv ≠ "" then [Clause.term ("sentiment") sv] else []) := hx
      by_cases hs : sv ≠ ""
      · rw [if_pos hs] at hx
        rcases List.mem_cons.1 hx with hx' | hx'
        · subst hx'; simp [clauseRank]
        · cases hx'
      · rw [if_neg hs] at hx
        cases hx
  · intro x hx
    by_cases hb : min_rating.isSome || max_rating.isSome
    · rw [if_pos hb] at hx
      rcases List.mem_cons.1 hx with hx' | hx'
      · subst hx'; simp [clauseRank]
      · cases hx'
    · rw [if_neg hb] at hx
      cases hx
  · intro x hx
    by_cases hb : date_from.isSome || date_to.isSome
    · rw [if_pos hb] at hx
      rcases List.mem_cons.1 hx with hx' | hx'
      · subst hx'; simp [clauseRank]
      · cases hx'
    · rw [if_neg hb] at hx
      cases hx

/-- C4: `build_query` is total over an optional query string and a filter
list: an absent or blank-after-trimming query yields the unconditional
`match_all` must clause; a non-blank query yields a single `multi_match`
over review_title (weight 2.0), review_text (weight 1.0) and product_name
(weight 1.5) with automatic length-scaled fuzziness and conjunctive term
semantics; in both cases the filter list is attached verbatim as the
non-scoring conjunctive filter. -/
theorem C4_build_query_total (q : Option (List Char)) (filters : List Clause) :
    ((q = none ∨ ∃ qs, q = some qs ∧ pyStrip qs = []) →
      build_query q filters = { must := [MustClause.match_all], filter := filters }) ∧
    (∀ qs, q = some qs → pyStrip qs ≠ [] →
      build_query q filters =
        { must := [MustClause.multi_match
            { query := qs
              fields := ["review_title^2", "review_text", "product_name^1.5"]
              fuzziness := "AUTO"
              operator := "and" }]
          filter := filters } ∧
      ["review_title^2", "review_text", "product_name^1.5"].map fieldBoost =
        [(("review_title"), 2), (("review_text"), 1), (("product_name"), 3/2)]) ∧
    (build_query q filters).filter = filters := by
  refine ⟨?_, ?_, ?_⟩
  · rintro (rfl | ⟨qs, rfl, hblank⟩)
    · rfl
    · show (if qs ≠ [] ∧ pyStrip qs ≠ [] then _ else _) = _
      rw [if_neg (by intro hc; exact hc.2 hblank)]
  · rintro qs rfl hq
    have hne : qs ≠ [] := by
      intro hc
      subst hc
      exact hq rfl
    constructor
    · show (if qs ≠ [] ∧ pyStrip qs ≠ [] then _ else _) = _
      rw [if_pos ⟨hne, hq⟩]
    · simp [fieldBoost, parseDecimal, parseDigits]
      norm_num
  · match q with
    | none => rfl
    | some qs =>
      show (BoolQuery.filter (if qs ≠ [] ∧ pyStrip qs ≠ [] then _ else _)) = filters
      by_cases hc : qs ≠ [] ∧ pyStrip qs ≠ []
      · rw [if_pos hc]
      · rw [if_neg hc]

/-- C4 witness: a concrete non-blank query and a concrete blank query, with
a nonempty filter list attached verbatim in both cases. -/
theorem C4_witness :
    build_query (some ('h' :: 'i' :: [])) [Clause.term ("product_id") ("p1")] =
      { must := [MustClause.multi_match
          { query := 'h' :: 'i' :: []
            fields := ["review_title^2", "review_text", "product_name^1.5"]
            fuzziness := "AUTO"
            operator := "and" }]
        filter := [Clause.term ("product_id") ("p1")] } ∧
    build_query (some (' ' :: ' ' :: [])) [Clause.term ("product_id") ("p1")] =
      { must := [MustClause.match_all]
        filter := [Clause.term ("product_id") ("p1")] } :=
  ⟨((C4_build_query_total (some ('h' :: 'i' :: [])) [Clause.term ("product_id") ("p1")]).2.1
      ('h' :: 'i' :: []) rfl (by decide)).1,
   (C4_build_query_total (some (' ' :: ' ' :: [])) [Clause.term ("product_id") ("p1")]).1
      (Or.inr ⟨' ' :: ' ' :: [], rfl, by decide⟩)⟩

/-- C5: `build_sort` maps every sort mode to the specified tiebreak list —
relevance yields no explicit ordering, and each of the four explicit modes
yields its primary (field, direction) followed by relevance-score-descending
as the final tiebreak. -/
theorem C5_build_sort_tiebreaks :
    build_sort SortType.relevance = none ∧
    build_sort SortType.newest =
      some [(("created_at"), ("desc")), (("_score"), ("desc"))] ∧
    build_sort SortType.oldest =
      some [(("created_at"), ("asc")), (("_score"), ("desc"))] ∧
    build_sort SortType.rating_desc =
      some [(("rating"), ("desc")), (("_score"), ("desc"))] ∧
    build_sort SortType.rating_asc =
      some [(("rating"), ("asc")), (("_score"), ("desc"))] ∧
    ∀ s, s ≠ SortType.relevance →
      ∃ l, build_sort s = some l ∧ l.getLast? = some (("_score"), ("desc")) := by
  refine ⟨rfl, rfl, rfl, rfl, rfl, ?_⟩
  intro s hs
  cases s with
  | relevance => exact absurd rfl hs
  | newest => exact ⟨_, rfl, rfl⟩
  | oldest => exact ⟨_, rfl, rfl⟩
  | rating_desc => exact ⟨_, rfl, rfl⟩
  | rating_asc => exact ⟨_, rfl, rfl⟩

/-- C5 witness: the non-relevance tiebreak property at the `newest` mode. -/
theorem C5_witness :
    ∃ l, build_sort SortType.newest = some l ∧
      l.getLast? = some (("_score"), ("desc")) :=
  C5_build_sort_tiebreaks.2.2.2.2.2 SortType.newest (by intro h; cases h)

/-- C6: search pagination — validation accepts exactly page ≥ 1 and
1 ≤ size ≤ 100 (default size 10), and for every accepted page and size the
body's offset is (page−1)·size and its size is the requested size, so
whenever the engine honours the requested size (hits ≤ size) the projected
item count never exceeds it. -/
theorem C6_pagination :
    (∀ page size : Int,
      search_params_valid page size = true ↔ 1 ≤ page ∧ 1 ≤ size ∧ size ≤ 100) ∧
    DEFAULT_PAGE_SIZE = 10 ∧
    ∀ q productId sentiment minRating maxRating dateFrom dateTo sort (page size : Int),
      search_params_valid page size = true →
      ((search_body q productId sentiment minRating maxRating dateFrom dateTo sort
          page size).fromOffset = (page - 1) * size ∧
       (search_body q productId sentiment minRating maxRating dateFrom dateTo sort
          page size).size = size ∧
       ∀ hits : List Hit, hits.length ≤ size.toNat →
         (project_items hits).length ≤ size.toNat) := by
  refine ⟨?_, rfl, ?_⟩
  · intro page size
    simp [search_params_valid, MAX_PAGE_SIZE]
  · intro q productId sentiment minRating maxRating dateFrom dateTo sort page size _
    refine ⟨rfl, rfl, ?_⟩
    intro hits hlen
    rw [project_items, List.length_map]
    exact hlen

/-- C6 witness: page 2 with size 10 passes validation and yields offset 10,
and a two-hit response projects to at most 10 items. -/
theorem C6_witness :
    search_params_valid 2 10 = true ∧
    ((search_body none none none none none none none SortType.relevance 2 10).fromOffset
        = (2 - 1) * 10 ∧
     (search_body none none none none none none none SortType.relevance 2 10).size = 10 ∧
     ∀ hits : List Hit, hits.length ≤ (10 : Int).toNat →
       (project_items hits).length ≤ (10 : Int).toNat) :=
  ⟨by decide,
   C6_pagination.2.2 none none none none none none none SortType.relevance 2 10 (by decide)⟩

/-- C7: the partial-update frame property — every stored field omitted from
the patch keeps its prior value, every supplied field takes the new value
(title and text normalized), `review_id` always keeps the path value, and
sentiment and sentiment_score are unconditionally recomputed from the
resulting normalized title and text, even when neither changed. -/
theorem C7_update_frame (polarity : List Char → Rat) (rid : String)
    (existing : Doc) (patch : ReviewUpdate) :
    (apply_patch polarity rid existing patch).product_id =
      patch.product_id.getD existing.product_id ∧
    (apply_patch polarity rid existing patch).product_name =
      patch.product_name.getD existing.product_name ∧
    (apply_patch polarity rid existing patch).rating =
      patch.rating.getD existing.rating ∧
    (apply_patch polarity rid existing patch).review_title =
      (patch.review_title.map clean_text).getD existing.review_title ∧
    (apply_patch polarity rid existing patch).review_text =
      (patch.review_text.map clean_text).getD existing.review_text ∧
    (apply_patch polarity rid existing patch).created_at =
      (patch.created_at.map PyDatetime.isoformat).getD existing.created_at ∧
    (apply_patch polarity rid existing patch).review_id = rid ∧
    (apply_patch polarity rid existing patch).sentiment =
      (compute_sentiment polarity
        (pyStrip ((apply_patch polarity rid existing patch).review_title ++
          ' ' :: (apply_patch polarity rid existing patch).review_text))).1 ∧
    (apply_patch polarity rid existing patch).sentiment_score =
      (compute_sentiment polarity
        (pyStrip ((apply_patch polarity rid existing patch).review_title ++
          ' ' :: (apply_patch polarity rid existing patch).review_text))).2 := by
  obtain ⟨p1, p2, p3, p4, p5, p6⟩ := patch
  cases p1 <;> cases p2 <;> cases p3 <;> cases p4 <;> cases p5 <;> cases p6 <;>
    simp [apply_patch, Option.getD]

/-- C8: for every unknown review id (with the index present), fetch,
partial update and delete each surface the distinct 404 "Review not found"
signal — never a generic failure — and the failed update performs no write:
the engine state is unchanged. -/
theorem C8_not_found_paths (polarity : List Char → Rat) (e : Engine) (rid : String)
    (patch : ReviewUpdate) (hidx : e.indexExists = true) (habs : e.lookup rid = none) :
    get_review e rid = Except.error ⟨404, "Review not found"⟩ ∧
    (update_review polarity e rid patch).1 = Except.error ⟨404, "Review not found"⟩ ∧
    (update_review polarity e rid patch).2 = e ∧
    (delete_review e rid).1 = Except.error ⟨404, "Review not found"⟩ ∧
    (delete_review e rid).2 = e := by
  have hidx' : ¬(!e.indexExists) = true := by simp [hidx]
  refine ⟨?_, ?_, ?_, ?_, ?_⟩ <;>
    simp only [get_review, update_review, delete_review, if_neg hidx', habs]

/-- C8 witness: the three 404 paths at a concrete empty store. -/
theorem C8_witness :
    get_review ⟨true, []⟩ ("r1") = Except.error ⟨404, "Review not found"⟩ ∧
    (update_review (fun _ => 0) ⟨true, []⟩ ("r1")
        ⟨none, none, none, none, none, none⟩).1 =
      Except.error ⟨404, "Review not found"⟩ ∧
    (update_review (fun _ => 0) ⟨true, []⟩ ("r1")
        ⟨none, none, none, none, none, none⟩).2 = ⟨true, []⟩ ∧
    (delete_review ⟨true, []⟩ ("r1")).1 = Except.error ⟨404, "Review not found"⟩ ∧
    (delete_review ⟨true, []⟩ ("r1")).2 = ⟨true, []⟩ :=
  C8_not_found_paths (fun _ => 0) ⟨true, []⟩ ("r1")
    ⟨none, none, none, none, none, none⟩ rfl rfl

theorem chunkGo_flatten (n : Nat) :
    ∀ (l : List Doc) (k : Nat) (acc : List Doc),
      (chunkGo n l k acc).flatten = acc.reverse ++ l := by
  intro l
  induction l with
  | nil =>
    intro k acc
    by_cases h : acc.isEmpty
    · rw [chunkGo, if_pos h]
      simp [List.isEmpty_iff.1 h]
    · rw [chunkGo, if_neg h]
      simp
  | cons x xs ih =>
    intro k acc
    cases k with
    | zero =>
      rw [chunkGo]
      simp [ih]
    | succ k' =>
      rw [chunkGo, ih]
      simp

theorem chunkGo_sizes (n : Nat) (hn : 1 ≤ n) :
    ∀ (l : List Doc) (k : Nat) (acc : List Doc), k ≤ n → acc.length = n - k →
      ∀ c ∈ chunkGo n l k acc, c ≠ [] ∧ c.length ≤ n := by
  intro l
  induction l with
  | nil =>
    intro k acc hk hacc c hc
    by_cases h : acc.isEmpty
    · rw [chunkGo, if_pos h] at hc
      cases hc
    · rw [chunkGo, if_neg h] at hc
      rcases List.mem_cons.1 hc with hc' | hc'
      · subst hc'
        refine ⟨by simpa [List.isEmpty_iff] using h, ?_⟩
        rw [List.length_reverse, hacc]
        omega
      · cases hc'
  | cons x xs ih =>
    intro k acc hk hacc c hc
    cases k with
    | zero =>
      rw [chunkGo] at hc
      rcases List.mem_cons.1 hc with hc' | hc'
      · subst hc'
        constructor
        · intro he
          have : acc.length = 0 := by rw [← List.length_reverse, he]; rfl
          omega
        · rw [List.length_reverse, hacc]
          omega
      · exact ih (n - 1) [x] (by omega) (by simp; omega) c hc'
    | succ k' =>
      rw [chunkGo] at hc
      exact ih k' (x :: acc) (by omega) (by simp; omega) c hc

/-- Consuming exactly the countdown's worth of input appends it (reversed)
to the accumulator. -/
theorem chunkGo_consume (n : Nat) (xs : List Doc) :
    ∀ (l : List Doc) (acc : List Doc),
      chunkGo n (l ++ xs) l.length acc = chunkGo n xs 0 (l.reverse ++ acc) := by
  intro l
  induction l with
  | nil => intro acc; simp
  | cons x l' ih =>
    intro acc
    rw [List.cons_append, List.length_cons, chunkGo, ih]
    simp

/-- C9 (amended): bulk ingestion batches the enriched documents in
batches of 500 (every batch nonempty and of at most 500 documents, jointly
containing exactly the submitted documents in order); a batch failure
abandons all remaining batches, with the outcome independent of them (no
retry); a failure surfaces as HTTP 500 carrying the raised bulk error and is
never acknowledged as success, while full success acknowledges
`len(reviews)`.  (The unamended claim — that the failure response reports
how many documents were durably ingested versus abandoned — is refuted by
`C9_failure_detail_hides_ingested_count`.) -/
theorem C9_bulk_batching (polarity : List Char → Rat)
    (engineFail : List Doc → Option Nat) (e : Engine) (reviews : List ReviewIn)
    (hidx : e.indexExists = true) :
    (∀ c ∈ chunkList 500 (reviews.map (enrich polarity)), c ≠ [] ∧ c.length ≤ 500) ∧
    (chunkList 500 (reviews.map (enrich polarity))).flatten =
      reviews.map (enrich polarity) ∧
    (∀ c rest rest' k, engineFail c = some k →
      run_bulk engineFail (c :: rest) = (c.length - k, some ⟨k⟩) ∧
      run_bulk engineFail (c :: rest) = run_bulk engineFail (c :: rest')) ∧
    (∀ err,
      (run_bulk engineFail (chunkList 500 (reviews.map (enrich polarity)))).2 = some err →
      bulk_ingest polarity engineFail e reviews = BulkResponse.bulkFailure 500 err) ∧
    ((run_bulk engineFail (chunkList 500 (reviews.map (enrich polarity)))).2 = none →
      bulk_ingest polarity engineFail e reviews =
        BulkResponse.ok reviews.length INDEX_NAME) := by
  have hidx' : ¬(!e.indexExists) = true := by simp [hidx]
  refine ⟨?_, ?_, ?_, ?_, ?_⟩
  · exact chunkGo_sizes 500 (by omega) _ 500 [] (by omega) (by simp)
  · exact chunkGo_flatten 500 _ 500 []
  · intro c rest rest' k hfail
    rw [run_bulk, run_bulk, hfail]
    exact ⟨rfl, rfl⟩
  · intro err herr
    rw [bulk_ingest, if_neg hidx', herr]
  · intro hok
    rw [bulk_ingest, if_neg hidx', hok]

/-- C9 witness: the success acknowledgement at a concrete empty submission
against a present index. -/
theorem C9_witness :
    bulk_ingest (fun _ => 0) (fun _ => none) ⟨true, []⟩ [] =
      BulkResponse.ok 0 INDEX_NAME :=
  (C9_bulk_batching (fun _ => 0) (fun _ => none) ⟨true, []⟩ [] rfl).2.2.2.2 rfl

theorem bulk_ingest_failure (polarity : List Char → Rat)
    (engineFail : List Doc → Option Nat) (e : Engine) (reviews : List ReviewIn)
    (err : BulkIndexError) (hidx : e.indexExists = true)
    (h : (run_bulk engineFail (chunkList 500 (reviews.map (enrich polarity)))).2 = some err) :
    bulk_ingest polarity engineFail e reviews = BulkResponse.bulkFailure 500 err := by
  rw [bulk_ingest, if_neg (by simp [hidx]), h]

theorem chunkList_one (n : Nat) (x : Doc) (k : Nat) (h : n = k + 1) :
    chunkList n [x] = [[x]] := by
  subst h
  rw [chunkList, chunkGo, chunkGo]
  rfl

theorem chunkList_append_full (n : Nat) (l xs : List Doc) (hl : l.length = n) :
    chunkList n (l ++ xs) = chunkGo n xs 0 l.reverse := by
  rw [chunkList, ← hl, chunkGo_consume, hl]
  rw [List.append_nil]

/-- C9 counterexample: the failure response does not report how many
documents were durably ingested versus abandoned.  A 1-document submission
in which nothing is durably ingested and a 501-document submission in which
the first batch of 500 is durably ingested before the second batch fails
produce the IDENTICAL response — HTTP 500 with detail
"1 document(s) failed to index." — so the response carries no ingested
count. -/
theorem C9_failure_detail_hides_ingested_count :
    bulk_ingest (fun _ => 0) (fun _ => some 1) ⟨true, []⟩ [sampleReview] =
      BulkResponse.bulkFailure 500 ⟨1⟩ ∧
    bulk_ingest (fun _ => 0) (fun c => if c.length = 500 then none else some 1) ⟨true, []⟩
      (List.replicate 501 sampleReview) = BulkResponse.bulkFailure 500 ⟨1⟩ ∧
    (run_bulk (fun _ => some 1)
      (chunkList 500 (([sampleReview]).map (enrich (fun _ => 0))))).1 = 0 ∧
    (run_bulk (fun c => if c.length = 500 then none else some 1)
      (chunkList 500 ((List.replicate 501 sampleReview).map (enrich (fun _ => 0))))).1
      = 500 := by
  have hmapA : ([sampleReview]).map (enrich (fun _ => 0)) =
      [enrich (fun _ => 0) sampleReview] := rfl
  have hmapB : (List.replicate 501 sampleReview).map (enrich (fun _ => 0)) =
      List.replicate 501 (enrich (fun _ => 0) sampleReview) := by
    rw [List.map_replicate]
  have hsplit : List.replicate 501 (enrich (fun _ => 0) sampleReview) =
      List.replicate 500 (enrich (fun _ => 0) sampleReview) ++
        [enrich (fun _ => 0) sampleReview] := by
    rw [show [enrich (fun _ => 0) sampleReview] =
      List.replicate 1 (enrich (fun _ => 0) sampleReview) from rfl]
    rw [← List.replicate_add]
  have hchunkA : chunkList 500 ([sampleReview].map (enrich (fun _ => 0))) =
      [[enrich (fun _ => 0) sampleReview]] := by
    rw [hmapA, chunkList_one 500 _ 499 rfl]
  have hchunkB : chunkList 500 ((List.replicate 501 sampleReview).map (enrich (fun _ => 0))) =
      [List.replicate 500 (enrich (fun _ => 0) sampleReview),
       [enrich (fun _ => 0) sampleReview]] := by
    rw [hmapB, hsplit,
      chunkList_append_full 500 _ _ (by rw [List.length_replicate]), chunkGo, chunkGo]
    rw [List.reverse_reverse, if_neg (by simp)]
    rfl
  have hrunA : run_bulk (fun _ => some 1) [[enrich (fun _ => 0) sampleReview]] =
      (0, some ⟨1⟩) := rfl
  have hrunB : run_bulk (fun c => if c.length = 500 then none else some 1)
      [List.replicate 500 (enrich (fun _ => 0) sampleReview),
       [enrich (fun _ => 0) sampleReview]] = (500, some ⟨1⟩) := by
    rw [run_bulk]
    simp only [List.length_replicate, if_pos rfl]
    rw [run_bulk]
    rfl
  refine ⟨?_, ?_, ?_, ?_⟩
  · exact bulk_ingest_failure _ _ _ _ _ rfl (by rw [hchunkA, hrunA])
  · exact bulk_ingest_failure _ _ _ _ _ rfl (by rw [hchunkB, hrunB])
  · rw [hchunkA, hrunA]
  · rw [hchunkB, hrunB]

/-- C10: `build_filters` treats the empty string as absence for the two
exact-match criteria — `product_id = ""` or `sentiment = ""` yields the
same clause list as leaving them out, and that list contains no term
clause — whereas the rating and date bounds are tested with `is not None`,
so any supplied bound always contributes its range clause. -/
theorem C10_truthiness_vs_none (product_id sentiment : Option String)
    (min_rating max_rating : Option Int) (date_from date_to : Option PyDatetime) :
    build_filters (some "") (some "") min_rating max_rating date_from date_to =
      build_filters none none min_rating max_rating date_from date_to ∧
    (∀ x ∈ build_filters (some "") (some "") min_rating max_rating date_from date_to,
      ∀ f v, x ≠ Clause.term f v) ∧
    (min_rating.isSome ∨ max_rating.isSome →
      Clause.range ("rating") (min_rating.map RangeVal.int) (max_rating.map RangeVal.int) ∈
        build_filters product_id sentiment min_rating max_rating date_from date_to) ∧
    (date_from.isSome ∨ date_to.isSome →
      Clause.range ("created_at") (date_from.map (fun d => RangeVal.str d.isoformat))
          (date_to.map (fun d => RangeVal.str d.isoformat)) ∈
        build_filters product_id sentiment min_rating max_rating date_from date_to) := by
  refine ⟨?_, ?_, ?_, ?_⟩
  · rw [build_filters, build_filters]
    rw [if_neg (by simp), if_neg (by simp)]
  · intro x hx f v
    rw [build_filters, if_neg (by simp)] at hx
    rw [if_neg (by simp), List.nil_append, List.nil_append] at hx
    rcases List.mem_append.1 hx with hm | hm
    · by_cases hb : min_rating.isSome || max_rating.isSome
      · rw [if_pos hb] at hm
        rcases List.mem_cons.1 hm with hm' | hm'
        · subst hm'
          intro he
          cases he
        · cases hm'
      · rw [if_neg hb] at hm
        cases hm
    · by_cases hb : date_from.isSome || date_to.isSome
      · rw [if_pos hb] at hm
        rcases List.mem_cons.1 hm with hm' | hm'
        · subst hm'
          intro he
          cases he
        · cases hm'
      · rw [if_neg hb] at hm
        cases hm
  · intro hb
    rw [build_filters.eq_def]
    refine List.mem_append.2 (Or.inl (List.mem_append.2 (Or.inr ?_)))
    rw [if_pos (by rcases hb with hb | hb <;> simp [hb])]
    exact List.mem_cons_self _ _
  · intro hb
    rw [build_filters.eq_def]
    refine List.mem_append.2 (Or.inr ?_)
    rw [if_pos (by rcases hb with hb | hb <;> simp [hb])]
    exact List.mem_cons_self _ _

/-- C10 witness: an empty-string product and sentiment with a single
supplied lower rating bound produce exactly the one range clause. -/
theorem C10_witness :
    build_filters (some "") (some "") (some 2) none none none =
      build_filters none none (some 2) none none none ∧
    Clause.range ("rating") (some (RangeVal.int 2)) none ∈
      build_filters (some "") (some "") (some 2) none none none :=
  ⟨(C10_truthiness_vs_none (some "") (some "") (some 2) none none none).1,
   (C10_truthiness_vs_none (some "") (some "") (some 2) none none none).2.2.1
     (Or.inl rfl)⟩

end ReviewApp
